import Mathlib

/-!
Verification of the Roots-Dashboard aggregation pipeline.

Shallow embedding of the dashboard API route (`src/app/api/dashboard/route.ts`,
the documented revision) and of the listings DELETE handler
(`src/app/api/listings/route.ts`).

Modelling conventions:
* JavaScript `Date` values are UTC timestamps in milliseconds, embedded as `Int`
  (`Date.prototype.getTime`).  The server clock is `now : Int`.
* `Math.floor` of an exact ratio of integers is `Int.fdiv` (floor division).
* JavaScript `number` arithmetic on the averaged quantities is embedded as
  exact rational arithmetic (`ℚ`); `Math.round x` is `⌊x + 1/2⌋` (JavaScript
  rounds half-way cases toward positive infinity).
* A JavaScript division whose divisor is zero (average of an empty population:
  `0 / 0 = NaN`) has no rational value; the affected computations return
  `Option` values, `none` standing for the NaN result.
* `listing.lastStatusChange` is nullable in the Prisma schema, embedded as
  `Option Int`; `x || y` on it is `Option.getD` (a `Date` object is never
  falsy).
-/

/-- Milliseconds per day, the divisor `1000 * 60 * 60 * 24` used throughout
the route. -/
def msPerDay : Int := 1000 * 60 * 60 * 24

/-- Milliseconds per year, the divisor `1000 * 60 * 60 * 24 * 365` used for
mortgage ages. -/
def msPerYear : ℚ := 1000 * 60 * 60 * 24 * 365

/-- JavaScript `Math.round`: nearest integer, half-way cases toward `+∞`. -/
def jsRound (x : ℚ) : Int := ⌊x + 1 / 2⌋

/-- The fields of an active listing selected by the route's
`prisma.listing.findMany` call: `createdAt`, `lastStatusChange`, `updatedAt`,
`denormalizedAssumableLoanType`. -/
structure ActiveListing where
  createdAt : Int
  lastStatusChange : Option Int
  updatedAt : Int
  denormalizedAssumableLoanType : Option String
  deriving DecidableEq

/-- Per-listing days-on-market value from the `daysOnMarketList` map:
`endDate = listing.lastStatusChange || now`, replaced by `now` when it
precedes `createdAt`, then `Math.max(0, Math.floor((endDate - startDate) /
(1000*60*60*24)))`. -/
def daysOnMarketValue (now : Int) (l : ActiveListing) : Int :=
  let startDate := l.createdAt
  let endDate0 := l.lastStatusChange.getD now
  let endDate := if endDate0 < startDate then now else endDate0
  max 0 (Int.fdiv (endDate - startDate) msPerDay)

/-- The `averageDaysOnMarket` computation: `Math.round` of the sum of the
per-listing day values divided by the population size.  On an empty
population the JavaScript division is `0 / 0 = NaN`, embedded as `none`. -/
def averageDaysOnMarket (now : Int) (listings : List ActiveListing) : Option Int :=
  let vals := listings.map (daysOnMarketValue now)
  if vals.length = 0 then none
  else some (jsRound ((vals.sum : ℚ) / (vals.length : ℚ)))

/-- Per-listing update frequency from the `updateFrequencies` map:
`updates / daysActive` with `daysActive = Math.max(1, ⌊(now - createdAt) /
day⌋)` and `updates = ⌊(now - updatedAt) / day⌋`. -/
def updateFrequencyValue (now : Int) (l : ActiveListing) : ℚ :=
  let daysActive := max 1 (Int.fdiv (now - l.createdAt) msPerDay)
  let updates := Int.fdiv (now - l.updatedAt) msPerDay
  (updates : ℚ) / (daysActive : ℚ)

/-- The `averageUpdateFrequency` computation: `Math.round` of the mean of the
per-listing frequencies; `none` (NaN) on an empty population. -/
def averageUpdateFrequency (now : Int) (listings : List ActiveListing) : Option Int :=
  let freqs := listings.map (updateFrequencyValue now)
  if freqs.length = 0 then none
  else some (jsRound (freqs.sum / (freqs.length : ℚ)))

/-- Days value fed to the days-on-market bucketing loop
(`const days = Math.floor((now.getTime() - listing.createdAt.getTime()) /
(1000 * 60 * 60 * 24))`).  Note it is computed from `createdAt` and `now`
only. -/
def daysOnMarketBucketValue (now : Int) (l : ActiveListing) : Int :=
  Int.fdiv (now - l.createdAt) msPerDay

/-- The `categorizeDaysOnMarket` helper. -/
def categorizeDaysOnMarket (days : Int) : String :=
  if days ≤ 30 then "0-30 days"
  else if days ≤ 60 then "30-60 days"
  else if days ≤ 90 then "60-90 days"
  else "90+ days"

/-- The `categorizeUpdateFrequency` helper (`0.25 = 1/4`,
`0.033 = 33/1000`). -/
def categorizeUpdateFrequency (frequency : ℚ) : String :=
  if 1 ≤ frequency then "Daily"
  else if 1 / 4 ≤ frequency then "Weekly"
  else if 33 / 1000 ≤ frequency then "Monthly"
  else "Quarterly"

/-- One entry of the route's `priceRanges` array: minimum, optional exclusive
maximum (`null` for the open-ended last range), and label. -/
structure PriceRange where
  lo : ℚ
  hi : Option ℚ
  label : String

/-- The five fixed `priceRanges` of the route. -/
def priceRanges : List PriceRange :=
  [⟨0, some 250000, "0-250k"⟩,
   ⟨250000, some 500000, "250k-500k"⟩,
   ⟨500000, some 750000, "500k-750k"⟩,
   ⟨750000, some 1000000, "750k-1M"⟩,
   ⟨1000000, none, "1M+"⟩]

/-- Membership of a price in a range, as in the per-range count query
`price: { gte: range.min, ...(range.max ? { lt: range.max } : {}) }`:
lower bound inclusive, upper bound exclusive and dropped when `max` is
`null`. -/
def priceInRangeB (p : ℚ) (r : PriceRange) : Bool :=
  decide (r.lo ≤ p) &&
    match r.hi with
    | some mx => decide (p < mx)
    | none => true

/-- The `priceDistribution.values` payload: for each range, the store-side
count of active listings whose price lies in the range, embedded as a count
over the list of active-listing prices. -/
def priceDistributionValues (prices : List ℚ) : List Nat :=
  priceRanges.map (fun r => prices.countP (fun p => priceInRangeB p r))

/-- Label of the first of the `priceRanges` containing a price, if any. -/
def priceBucketLabel (p : ℚ) : Option String :=
  (priceRanges.find? (fun r => priceInRangeB p r)).map PriceRange.label

/-- The `metrics.averagePrice` field: `avgPrice._avg.price || 0`.  The
store-side average is `null` (here `none`) on an empty population; `||`
also replaces a numeric `0` (falsy) by the fallback `0`. -/
def averagePriceMetric (storeAvg : Option ℚ) : ℚ :=
  match storeAvg with
  | none => 0
  | some v => if v = 0 then 0 else v

/-- The fields of a mortgage selected by the route's
`prisma.assumableMortgage.findMany` call. -/
structure AssumableMortgage where
  currentBalance : ℚ
  interestRate : ℚ
  createdAt : Int
  remainingTerm : Int
  deriving DecidableEq

/-- Mortgage age in years:
`(now.getTime() - mortgage.createdAt.getTime()) / (1000*60*60*24*365)`. -/
def mortgageAge (now : Int) (m : AssumableMortgage) : ℚ :=
  ((now - m.createdAt : Int) : ℚ) / msPerYear

/-- The if-chain classifying a mortgage age into the keys of
`mortgageAgeDistribution`. -/
def categorizeMortgageAge (age : ℚ) : String :=
  if age ≤ 5 then "0-5 years"
  else if age ≤ 10 then "5-10 years"
  else if age ≤ 15 then "10-15 years"
  else if age ≤ 20 then "15-20 years"
  else "20+ years"

/-- The `categorizeBalance` helper. -/
def categorizeBalance (balance : ℚ) : String :=
  if balance ≤ 100000 then "0-100k"
  else if balance ≤ 250000 then "100k-250k"
  else if balance ≤ 500000 then "250k-500k"
  else "500k+"

/-- The `categorizeInterestRate` helper. -/
def categorizeInterestRate (rate : ℚ) : String :=
  if rate ≤ 3 then "0-3%"
  else if rate ≤ 4 then "3-4%"
  else if rate ≤ 5 then "4-5%"
  else if rate ≤ 6 then "5-6%"
  else "6%+"

/-- Keys of the `mortgageAgeDistribution` record, in declaration order
(`Object.keys` order). -/
def mortgageAgeLabels : List String :=
  ["0-5 years", "5-10 years", "10-15 years", "15-20 years", "20+ years"]

/-- Keys of the `balanceDistribution` record, in declaration order. -/
def balanceLabels : List String :=
  ["0-100k", "100k-250k", "250k-500k", "500k+"]

/-- Keys of the `interestRateRanges` record, in declaration order. -/
def interestRateLabels : List String :=
  ["0-3%", "3-4%", "4-5%", "5-6%", "6%+"]

/-- Increment the entry of the (first) matching key in a fixed-key tally,
embedding `record[categorize(x)]++` on a record with a fixed key set. -/
def bumpTally : List (String × Nat) → String → List (String × Nat)
  | [], _ => []
  | (l, c) :: rest, k =>
    if l = k then (l, c + 1) :: rest else (l, c) :: bumpTally rest k

/-- Tally a population into a record with the given fixed keys (initial
counts all `0`), one `forEach` increment per element. -/
def tallyBy (labels : List String) (key : α → String) (pop : List α) :
    List (String × Nat) :=
  pop.foldl (fun acc x => bumpTally acc (key x)) (labels.map (fun l => (l, 0)))

/-- The `values` sequence of a tally record (`Object.values`, declaration
order). -/
def tallyValues (labels : List String) (key : α → String) (pop : List α) :
    List Nat :=
  (tallyBy labels key pop).map Prod.snd

/-- The `mortgageAnalytics.ageDistribution.values` payload. -/
def mortgageAgeDistributionValues (now : Int) (ms : List AssumableMortgage) :
    List Nat :=
  tallyValues mortgageAgeLabels (fun m => categorizeMortgageAge (mortgageAge now m)) ms

/-- The `mortgageAnalytics.balanceDistribution.values` payload. -/
def balanceDistributionValues (ms : List AssumableMortgage) : List Nat :=
  tallyValues balanceLabels (fun m => categorizeBalance m.currentBalance) ms

/-- The `mortgageAnalytics.interestRateDistribution.values` payload. -/
def interestRateDistributionValues (ms : List AssumableMortgage) : List Nat :=
  tallyValues interestRateLabels (fun m => categorizeInterestRate m.interestRate) ms

/-- JSON body of a listings-API response: either an `{ error: ... }` object
or a `{ message: ... }` object. -/
inductive ApiBody where
  | errObj (msg : String)
  | msgObj (msg : String)
  deriving DecidableEq

/-- An HTTP response: status code and JSON body. -/
structure ApiResponse where
  status : Nat
  body : ApiBody
  deriving DecidableEq

/-- The listings `DELETE` handler.  `id` is `searchParams.get('id')`
(`none` when the parameter is absent); `!id` is also true for the empty
string.  `svc` is `listingService.delete`, whose thrown exception is the
`Except.error` case caught by the handler's `try/catch`. -/
def deleteHandler (id : Option String) (svc : String → Except Unit Unit) :
    ApiResponse :=
  match id with
  | none => ⟨400, ApiBody.errObj "ID is required"⟩
  | some s =>
    if s = "" then ⟨400, ApiBody.errObj "ID is required"⟩
    else
      match svc s with
      | Except.ok _ => ⟨200, ApiBody.msgObj "Listing deleted successfully"⟩
      | Except.error _ => ⟨500, ApiBody.errObj "Failed to delete listing"⟩

/-- Strict lexicographic comparison of character lists by code point, the
order underlying `String.prototype.localeCompare` on the ASCII date keys
produced by the time-series grouping. -/
def strLtCore : List Char → List Char → Bool
  | [], [] => false
  | [], _ :: _ => true
  | _ :: _, [] => false
  | a :: as, b :: bs =>
    if a.toNat < b.toNat then true
    else if b.toNat < a.toNat then false
    else strLtCore as bs

/-- Strict string comparison by code point. -/
def strLtB (a b : String) : Bool := strLtCore a.data b.data

/-- Comparator used to embed the ascending `localeCompare` sort of the
grouped entries: `a` precedes-or-equals `b`. -/
def entryLe (a b : String × Nat) : Prop := strLtB b.1 a.1 = false

instance : DecidableRel entryLe := fun a b => instDecidableEqBool (strLtB b.1 a.1) false

/-- Day number (days since 1970-01-01 UTC) of a millisecond timestamp, the
calendar day the `Date` methods read in UTC. -/
def dayOfTimestamp (t : Int) : Int := Int.fdiv t msPerDay

/-- JavaScript `Date.prototype.getDay` in UTC: day of week, `0` = Sunday.
Day `0` (1970-01-01) was a Thursday, hence the offset `4`. -/
def jsGetDay (d : Int) : Int := (d + 4).emod 7

/-- Proleptic Gregorian civil date `(year, month, day)` of a day number
(days since 1970-01-01), the standard era-based conversion used by
`Date.prototype.toISOString` / `getFullYear` / `getMonth` / `getDate`. -/
def civilFromDays (z : Int) : Int × Nat × Nat :=
  let z2 := z + 719468
  let era := Int.fdiv z2 146097
  let doe := (z2 - era * 146097).toNat
  let yoe := (doe - doe / 1460 + doe / 36524 - doe / 146096) / 365
  let y := (yoe : Int) + era * 400
  let doy := doe - (365 * yoe + yoe / 4 - yoe / 100)
  let mp := (5 * doy + 2) / 153
  let d := doy - (153 * mp + 2) / 5 + 1
  let m := if mp < 10 then mp + 3 else mp - 9
  (if m ≤ 2 then y + 1 else y, m, d)

/-- Zero-pad a (month or day) number to two digits, as in
`String(n).padStart(2, '0')` and in the ISO date rendering. -/
def pad2 (n : Nat) : String := if n < 10 then "0" ++ toString n else toString n

/-- The date part of `Date.prototype.toISOString` for a day number:
`YYYY-MM-DD`. -/
def isoDateOfDay (d : Int) : String :=
  let c := civilFromDays d
  toString c.1 ++ "-" ++ pad2 c.2.1 ++ "-" ++ pad2 c.2.2

/-- Weekly grouping key of a creation timestamp: the route computes
`diff = date.getDate() - date.getDay()` and `date.setDate(diff)`, i.e. it
moves the date back `getDay()` days (with month rollover), landing on the
Sunday starting the week, then takes `toISOString().split('T')[0]`. -/
def weeklyKeyOfTimestamp (t : Int) : String :=
  let d := dayOfTimestamp t
  isoDateOfDay (d - jsGetDay d)

/-- Monthly grouping key of a creation timestamp:
`` `${date.getFullYear()}-${String(date.getMonth() + 1).padStart(2, '0')}` ``. -/
def monthlyKeyOfTimestamp (t : Int) : String :=
  let c := civilFromDays (dayOfTimestamp t)
  toString c.1 ++ "-" ++ pad2 c.2.1

/-- The two grouping intervals of `processTimeSeries`. -/
inductive TrendInterval where
  | weekly
  | monthly
  deriving DecidableEq

/-- Grouping key selected by the `if (interval === 'weekly')` branch. -/
def intervalKey : TrendInterval → Int → String
  | TrendInterval.weekly, t => weeklyKeyOfTimestamp t
  | TrendInterval.monthly, t => monthlyKeyOfTimestamp t

/-- One raw time-series row: a creation timestamp and its `_count`. -/
structure TSPoint where
  createdAt : Int
  count : Nat
  deriving DecidableEq

/-- The processed time-series shape: parallel `dates` and `values`. -/
structure ProcessedTimeSeries where
  dates : List String
  values : List Nat
  deriving DecidableEq

/-- `Map.prototype.get` on the insertion-ordered grouping map. -/
def lookupKey : List (String × Nat) → String → Option Nat
  | [], _ => none
  | (k, v) :: rest, key => if k = key then some v else lookupKey rest key

/-- `Map.prototype.set`: replace the value of an existing key in place, or
append a new key at the end (JavaScript `Map` preserves insertion order). -/
def mapSet : List (String × Nat) → String → Nat → List (String × Nat)
  | [], key, v => [(key, v)]
  | (k, v0) :: rest, key, v =>
    if k = key then (k, v) :: rest else (k, v0) :: mapSet rest key v

/-- One `forEach` step of the grouping:
`groupedData.set(key, (groupedData.get(key) || 0) + item._count)`. -/
def groupStep (kf : Int → String) (m : List (String × Nat)) (item : TSPoint) :
    List (String × Nat) :=
  let key := kf item.createdAt
  mapSet m key ((lookupKey m key).getD 0 + item.count)

/-- The `processTimeSeries` helper of the route: guard on missing or empty
input, group by interval key summing `_count`s, sort entries ascending by
key string, and split into parallel `dates`/`values` sequences. -/
def processTimeSeries (data : Option (List TSPoint)) (interval : TrendInterval) :
    ProcessedTimeSeries :=
  match data with
  | none => ⟨[], []⟩
  | some items =>
    if items.length = 0 then ⟨[], []⟩
    else
      let grouped := items.foldl (groupStep (intervalKey interval)) []
      let sortedEntries := List.insertionSort entryLe grouped
      ⟨sortedEntries.map Prod.fst, sortedEntries.map Prod.snd⟩

/-- Sum of the `_count`s of the items carrying a given grouping key. -/
def sumCountsForKey (kf : Int → String) (k : String) (items : List TSPoint) : Nat :=
  ((items.filter (fun it => kf it.createdAt = k)).map TSPoint.count).sum

/-- A day number is a Sunday (1970-01-01, day `0`, was a Thursday). -/
def isSundayDay (d : Int) : Prop := (d + 4).emod 7 = 0

/-- Two timestamps fall in the same Sunday-started calendar week: some
Sunday starts a seven-day span containing both days. -/
def sameCalendarWeek (t1 t2 : Int) : Prop :=
  ∃ s : Int, isSundayDay s ∧
    s ≤ dayOfTimestamp t1 ∧ dayOfTimestamp t1 < s + 7 ∧
    s ≤ dayOfTimestamp t2 ∧ dayOfTimestamp t2 < s + 7

/-- Two timestamps fall in the same civil month: equal year and month. -/
def sameCivilMonth (t1 t2 : Int) : Prop :=
  (civilFromDays (dayOfTimestamp t1)).1 = (civilFromDays (dayOfTimestamp t2)).1 ∧
  (civilFromDays (dayOfTimestamp t1)).2.1 = (civilFromDays (dayOfTimestamp t2)).2.1

/-! Theorems. -/

/-- C4: the per-listing days-on-market value of the `averageDaysOnMarket`
computation is never negative; when `lastStatusChange` precedes `createdAt`
the end date is replaced by the current time, leaving the clamped whole-day
difference from creation to now. -/
theorem daysOnMarket_value_nonneg :
    (∀ (now : Int) (l : ActiveListing), 0 ≤ daysOnMarketValue now l) ∧
    (∀ (now : Int) (l : ActiveListing),
      l.lastStatusChange.getD now < l.createdAt →
      daysOnMarketValue now l = max 0 (Int.fdiv (now - l.createdAt) msPerDay)) := by
  constructor
  · intro now l
    exact le_max_left _ _
  · intro now l h
    simp only [daysOnMarketValue, if_pos h]

/-- C4 witness: a listing whose status change precedes its creation. -/
theorem daysOnMarket_value_nonneg_witness :
    daysOnMarketValue 5 ⟨0, some (-1), 0, none⟩ =
      max 0 (Int.fdiv (5 - 0) msPerDay) :=
  daysOnMarket_value_nonneg.2 5 ⟨0, some (-1), 0, none⟩ (by decide)

/-- C5: on an empty active-listing population both averages divide by zero
(`0 / 0 = NaN` in JavaScript, `none` here): there is no fallback value and
the result is not a guaranteed zero. -/
theorem empty_population_averages_undefined :
    (∀ now : Int, averageDaysOnMarket now [] = none) ∧
    (∀ now : Int, averageUpdateFrequency now [] = none) :=
  ⟨fun _ => rfl, fun _ => rfl⟩

/-- C6: update-frequency bucketing is evaluated top-down with inclusive
lower thresholds and the first match wins: the non-negative domain is
partitioned into `[1,∞) → Daily`, `[1/4,1) → Weekly`, `[33/1000,1/4) →
Monthly`, `[0,33/1000) → Quarterly`; in particular `1 → Daily`,
`0.5 → Weekly`, `0.2 → Monthly`, `0.01 → Quarterly`. -/
theorem update_frequency_bucketing_first_match :
    (∀ f : ℚ, 0 ≤ f →
      (1 ≤ f ∧ categorizeUpdateFrequency f = "Daily") ∨
      (f < 1 ∧ 1 / 4 ≤ f ∧ categorizeUpdateFrequency f = "Weekly") ∨
      (f < 1 / 4 ∧ 33 / 1000 ≤ f ∧ categorizeUpdateFrequency f = "Monthly") ∨
      (f < 33 / 1000 ∧ categorizeUpdateFrequency f = "Quarterly")) ∧
    categorizeUpdateFrequency 1 = "Daily" ∧
    categorizeUpdateFrequency (1 / 2) = "Weekly" ∧
    categorizeUpdateFrequency (1 / 5) = "Monthly" ∧
    categorizeUpdateFrequency (1 / 100) = "Quarterly" := by
  refine ⟨?_, ?_, ?_, ?_, ?_⟩
  · intro f _
    unfold categorizeUpdateFrequency
    rcases le_or_lt 1 f with h1 | h1
    · exact Or.inl ⟨h1, by rw [if_pos h1]⟩
    · rcases le_or_lt (1 / 4 : ℚ) f with h2 | h2
      · exact Or.inr (Or.inl ⟨h1, h2, by rw [if_neg (not_le.mpr h1), if_pos h2]⟩)
      · rcases le_or_lt (33 / 1000 : ℚ) f with h3 | h3
        · exact Or.inr (Or.inr (Or.inl ⟨h2, h3,
            by rw [if_neg (not_le.mpr h1), if_neg (not_le.mpr h2), if_pos h3]⟩))
        · exact Or.inr (Or.inr (Or.inr ⟨h3,
            by rw [if_neg (not_le.mpr h1), if_neg (not_le.mpr h2), if_neg (not_le.mpr h3)]⟩))
  · norm_num [categorizeUpdateFrequency]
  · norm_num [categorizeUpdateFrequency]
  · norm_num [categorizeUpdateFrequency]
  · norm_num [categorizeUpdateFrequency]

/-- C6 witness: the partition instantiated at frequency `1/2`. -/
theorem update_frequency_bucketing_first_match_witness :
    (1 ≤ (1 / 2 : ℚ) ∧ categorizeUpdateFrequency (1 / 2) = "Daily") ∨
    ((1 / 2 : ℚ) < 1 ∧ 1 / 4 ≤ (1 / 2 : ℚ) ∧
      categorizeUpdateFrequency (1 / 2) = "Weekly") ∨
    ((1 / 2 : ℚ) < 1 / 4 ∧ 33 / 1000 ≤ (1 / 2 : ℚ) ∧
      categorizeUpdateFrequency (1 / 2) = "Monthly") ∨
    ((1 / 2 : ℚ) < 33 / 1000 ∧ categorizeUpdateFrequency (1 / 2) = "Quarterly") :=
  update_frequency_bucketing_first_match.1 (1 / 2) (by norm_num)

/-- C8: the listings DELETE handler returns 400 with `{ error: "ID is
required" }` when `id` is missing, independently of the delete service (no
deletion is attempted); with an `id` present it returns 200 with the
confirmation message on success and 500 on any service failure. -/
theorem delete_handler_responses :
    (∀ svc : String → Except Unit Unit,
      deleteHandler none svc = ⟨400, ApiBody.errObj "ID is required"⟩) ∧
    (∀ svc svc2 : String → Except Unit Unit,
      deleteHandler none svc = deleteHandler none svc2) ∧
    (∀ (s : String) (svc : String → Except Unit Unit), s ≠ "" →
      svc s = Except.ok () →
      deleteHandler (some s) svc =
        ⟨200, ApiBody.msgObj "Listing deleted successfully"⟩) ∧
    (∀ (s : String) (svc : String → Except Unit Unit) (e : Unit), s ≠ "" →
      svc s = Except.error e →
      deleteHandler (some s) svc =
        ⟨500, ApiBody.errObj "Failed to delete listing"⟩) := by
  refine ⟨fun _ => rfl, fun _ _ => rfl, ?_, ?_⟩
  · intro s svc hs hok
    simp [deleteHandler, hs, hok]
  · intro s svc e hs herr
    simp [deleteHandler, hs, herr]

/-- C8 witness: deleting id `"42"` with a succeeding service returns 200. -/
theorem delete_handler_responses_witness :
    deleteHandler (some "42") (fun _ => Except.ok ()) =
      ⟨200, ApiBody.msgObj "Listing deleted successfully"⟩ :=
  delete_handler_responses.2.2.1 "42" (fun _ => Except.ok ()) (by decide) rfl

/-- C10: `metrics.averagePrice` replaces a `null` store-side average (empty
active population) by `0` through the falsy `||` fallback, which also maps a
genuine zero average to `0` and leaves any non-zero average unchanged —
unlike `averageDaysOnMarket` and `averageUpdateFrequency`, which have no
empty-population fallback. -/
theorem average_price_falsy_fallback :
    averagePriceMetric none = 0 ∧
    averagePriceMetric (some 0) = 0 ∧
    (∀ v : ℚ, v ≠ 0 → averagePriceMetric (some v) = v) ∧
    (∀ now : Int,
      averageDaysOnMarket now [] = none ∧ averageUpdateFrequency now [] = none) := by
  refine ⟨rfl, by simp [averagePriceMetric], ?_, fun _ => ⟨rfl, rfl⟩⟩
  intro v hv
  simp [averagePriceMetric, hv]

/-- C10 witness: a non-zero average price passes through unchanged. -/
theorem average_price_falsy_fallback_witness :
    averagePriceMetric (some 5) = 5 :=
  average_price_falsy_fallback.2.2.1 5 (by norm_num)

/-- C3 counterexample: the days value fed to the `daysOnMarketByType`
bucketing is `⌊(now - createdAt)/day⌋`, not the creation-to-status-change
days-on-market quantity of `averageDaysOnMarket`: a listing created at epoch
with a status change 10 days later, observed 100 days after creation, is
bucketed by 100 days (`90+ days`) while its days-on-market value is 10
(`0-30 days`). -/
theorem daysOnMarket_bucket_value_counterexample :
    daysOnMarketBucketValue (100 * msPerDay) ⟨0, some (10 * msPerDay), 0, none⟩ ≠
      daysOnMarketValue (100 * msPerDay) ⟨0, some (10 * msPerDay), 0, none⟩ ∧
    categorizeDaysOnMarket
        (daysOnMarketValue (100 * msPerDay) ⟨0, some (10 * msPerDay), 0, none⟩) =
      "0-30 days" ∧
    categorizeDaysOnMarket
        (daysOnMarketBucketValue (100 * msPerDay) ⟨0, some (10 * msPerDay), 0, none⟩) =
      "90+ days" :=
  ⟨by decide, by decide, by decide⟩

/-- C3 amended: the value bucketed by `daysOnMarketByType` is the floored
whole-day duration from creation to now, which coincides with the
days-on-market quantity of `averageDaysOnMarket` exactly for listings with
no recorded status change and a creation time not in the future. -/
theorem daysOnMarket_bucket_value_eq_of_unchanged :
    ∀ (now : Int) (l : ActiveListing), l.lastStatusChange = none →
      l.createdAt ≤ now →
      daysOnMarketBucketValue now l = daysOnMarketValue now l := by
  intro now l hnone hle
  unfold daysOnMarketValue daysOnMarketBucketValue
  rw [hnone]
  simp only [Option.getD_none, ite_self]
  have h0 : 0 ≤ Int.fdiv (now - l.createdAt) msPerDay :=
    Int.fdiv_nonneg (by omega) (by decide)
  rw [max_eq_right h0]

/-- C3 amended witness: an unchanged listing five days after creation. -/
theorem daysOnMarket_bucket_value_eq_of_unchanged_witness :
    daysOnMarketBucketValue (5 * msPerDay) ⟨0, none, 0, none⟩ =
      daysOnMarketValue (5 * msPerDay) ⟨0, none, 0, none⟩ :=
  daysOnMarket_bucket_value_eq_of_unchanged (5 * msPerDay) ⟨0, none, 0, none⟩
    rfl (by decide)

/-- Helper: a non-negative price satisfies exactly one of the five range
predicates. -/
theorem priceRanges_countP_eq_one (p : ℚ) (hp : 0 ≤ p) :
    priceRanges.countP (fun r => priceInRangeB p r) = 1 := by
  rcases lt_or_le p 250000 with h1 | h1
  · have a2 : ¬ (250000 : ℚ) ≤ p := not_le.mpr h1
    have a3 : ¬ (500000 : ℚ) ≤ p := not_le.mpr (h1.trans (by norm_num))
    have a4 : ¬ (750000 : ℚ) ≤ p := not_le.mpr (h1.trans (by norm_num))
    have a5 : ¬ (1000000 : ℚ) ≤ p := not_le.mpr (h1.trans (by norm_num))
    simp [priceRanges, priceInRangeB, List.countP_cons, hp, h1, a2, a3, a4, a5]
  · rcases lt_or_le p 500000 with h2 | h2
    · have a1 : ¬ p < 250000 := not_lt.mpr h1
      have a3 : ¬ (500000 : ℚ) ≤ p := not_le.mpr h2
      have a4 : ¬ (750000 : ℚ) ≤ p := not_le.mpr (h2.trans (by norm_num))
      have a5 : ¬ (1000000 : ℚ) ≤ p := not_le.mpr (h2.trans (by norm_num))
      simp [priceRanges, priceInRangeB, List.countP_cons, hp, h1, h2, a1, a3, a4, a5]
    · rcases lt_or_le p 750000 with h3 | h3
      · have a1 : ¬ p < 250000 := not_lt.mpr ((by norm_num : (250000:ℚ) ≤ 500000).trans h2)
        have a2 : ¬ p < 500000 := not_lt.mpr h2
        have a4 : ¬ (750000 : ℚ) ≤ p := not_le.mpr h3
        have a5 : ¬ (1000000 : ℚ) ≤ p := not_le.mpr (h3.trans (by norm_num))
        simp [priceRanges, priceInRangeB, List.countP_cons, hp, h3, a1, a2, a4, a5,
          le_trans (by norm_num : (250000:ℚ) ≤ 500000) h2, h2]
      · rcases lt_or_le p 1000000 with h4 | h4
        · have a1 : ¬ p < 250000 := not_lt.mpr (le_trans (by norm_num) h3)
          have a2 : ¬ p < 500000 := not_lt.mpr (le_trans (by norm_num) h3)
          have a3 : ¬ p < 750000 := not_lt.mpr h3
          have a5 : ¬ (1000000 : ℚ) ≤ p := not_le.mpr h4
          simp [priceRanges, priceInRangeB, List.countP_cons, hp, h4, a1, a2, a3, a5,
            h3, le_trans (by norm_num : (250000:ℚ) ≤ 750000) h3,
            le_trans (by norm_num : (500000:ℚ) ≤ 750000) h3]
        · have a1 : ¬ p < 250000 := not_lt.mpr (le_trans (by norm_num) h4)
          have a2 : ¬ p < 500000 := not_lt.mpr (le_trans (by norm_num) h4)
          have a3 : ¬ p < 750000 := not_lt.mpr (le_trans (by norm_num) h4)
          have a4 : ¬ p < 1000000 := not_lt.mpr h4
          simp [priceRanges, priceInRangeB, List.countP_cons, hp, h4, a1, a2, a3, a4,
            le_trans (by norm_num : (250000:ℚ) ≤ 1000000) h4,
            le_trans (by norm_num : (500000:ℚ) ≤ 1000000) h4,
            le_trans (by norm_num : (750000:ℚ) ≤ 1000000) h4]

/-- Helper: a sum over a mapped list of pointwise sums splits. -/
theorem sum_map_add_split (l : List β) (f g : β → Nat) :
    (l.map (fun r => f r + g r)).sum = (l.map f).sum + (l.map g).sum := by
  induction l with
  | nil => rfl
  | cons r l ih => simp only [List.map_cons, List.sum_cons, ih]; omega

/-- Helper: summing indicator values over a list counts the matches. -/
theorem sum_map_ite_eq_countP (rs : List β) (q : β → Bool) :
    (rs.map (fun r => if q r then 1 else 0)).sum = rs.countP q := by
  induction rs with
  | nil => rfl
  | cons r rs ih =>
    simp only [List.map_cons, List.sum_cons, List.countP_cons, ih]
    omega

/-- Helper: double counting — summing per-range match counts over the ranges
equals summing per-element match counts over the elements. -/
theorem sum_map_countP_swap (rs : List β) (ps : List α) (f : α → β → Bool) :
    (rs.map (fun r => ps.countP (fun p => f p r))).sum =
      (ps.map (fun p => rs.countP (fun r => f p r))).sum := by
  induction ps with
  | nil => simp
  | cons p ps ih =>
    simp only [List.map_cons, List.sum_cons, List.countP_cons]
    rw [← ih, ← sum_map_ite_eq_countP rs (fun r => f p r), ← sum_map_add_split]
    refine congrArg List.sum (List.map_congr_left ?_)
    intro r _
    exact Nat.add_comm _ _

/-- C1: the five price ranges, lower bound inclusive and upper bound
exclusive (last unbounded), classify each non-negative price into exactly
one range, so for all-non-negative populations the per-range counts sum to
the population size; `250000` falls in `250k-500k`, `249999.99` in `0-250k`,
and the population `[100000, 300000, 1200000]` yields `[1,1,0,0,1]` against
the fixed labels. -/
theorem price_distribution_partition :
    (∀ p : ℚ, 0 ≤ p → priceRanges.countP (fun r => priceInRangeB p r) = 1) ∧
    priceBucketLabel (24999999 / 100) = some "0-250k" ∧
    priceBucketLabel 250000 = some "250k-500k" ∧
    (∀ prices : List ℚ, (∀ p ∈ prices, 0 ≤ p) →
      (priceDistributionValues prices).sum = prices.length) ∧
    priceDistributionValues [100000, 300000, 1200000] = [1, 1, 0, 0, 1] ∧
    priceRanges.map PriceRange.label =
      ["0-250k", "250k-500k", "500k-750k", "750k-1M", "1M+"] := by
  refine ⟨priceRanges_countP_eq_one, ?_, ?_, ?_, ?_, by decide⟩
  · norm_num [priceBucketLabel, priceRanges, priceInRangeB, List.find?]
  · norm_num [priceBucketLabel, priceRanges, priceInRangeB, List.find?]
  · intro prices hpos
    unfold priceDistributionValues
    rw [sum_map_countP_swap priceRanges prices (fun p r => priceInRangeB p r)]
    have hone : ∀ p ∈ prices,
        priceRanges.countP (fun r => priceInRangeB p r) = 1 :=
      fun p hp => priceRanges_countP_eq_one p (hpos p hp)
    induction prices with
    | nil => rfl
    | cons p ps ih =>
      simp only [List.map_cons, List.sum_cons, List.length_cons]
      rw [hone p (List.mem_cons_self p ps),
        ih (fun q hq => hpos q (List.mem_cons_of_mem p hq))
          (fun q hq => hone q (List.mem_cons_of_mem p hq))]
      omega
  · norm_num [priceDistributionValues, priceRanges, priceInRangeB,
      List.countP_cons, List.countP_nil]

/-- C1 witness: the partition instantiated at price `300000`. -/
theorem price_distribution_partition_witness :
    priceRanges.countP (fun r => priceInRangeB 300000 r) = 1 :=
  price_distribution_partition.1 300000 (by norm_num)

/-- Helper: floor division by a positive divisor is monotone in the
dividend. -/
theorem fdiv_le_fdiv_of_le {a b c : Int} (hc : 0 < c) (hab : a ≤ b) :
    a.fdiv c ≤ b.fdiv c := by
  rw [Int.fdiv_eq_ediv _ (le_of_lt hc), Int.fdiv_eq_ediv _ (le_of_lt hc)]
  exact Int.ediv_le_ediv hc hab

/-- Helper: for a listing updated between its creation and now, the
per-listing update frequency lies in `[0, 1]`. -/
theorem updateFrequencyValue_mem_unit (now : Int) (l : ActiveListing)
    (h1 : l.createdAt ≤ l.updatedAt) (h2 : l.updatedAt ≤ now) :
    0 ≤ updateFrequencyValue now l ∧ updateFrequencyValue now l ≤ 1 := by
  unfold updateFrequencyValue
  have hDpos : (0 : Int) < msPerDay := by decide
  have hU0 : 0 ≤ Int.fdiv (now - l.updatedAt) msPerDay :=
    Int.fdiv_nonneg (by omega) (by decide)
  have hUA : Int.fdiv (now - l.updatedAt) msPerDay ≤
      Int.fdiv (now - l.createdAt) msPerDay :=
    fdiv_le_fdiv_of_le hDpos (by omega)
  have hA1 : (1 : Int) ≤ max 1 (Int.fdiv (now - l.createdAt) msPerDay) :=
    le_max_left _ _
  have hUmax : Int.fdiv (now - l.updatedAt) msPerDay ≤
      max 1 (Int.fdiv (now - l.createdAt) msPerDay) :=
    le_trans hUA (le_max_right _ _)
  have hApos : (0 : ℚ) < ((max 1 (Int.fdiv (now - l.createdAt) msPerDay) : Int) : ℚ) := by
    exact_mod_cast lt_of_lt_of_le Int.zero_lt_one hA1
  constructor
  · exact div_nonneg (by exact_mod_cast hU0) (le_of_lt hApos)
  · rw [div_le_one hApos]
    exact_mod_cast hUmax

/-- C9: the reported averages are integers: `averageDaysOnMarket` is the
half-up rounding of the mean of per-listing whole-day (floored) durations —
e.g. day values `[1, 2]` average to `1.5` and are reported as `2`, and a
1.9-day duration is floored to `1` before averaging — and for any non-empty
population whose listings were updated between creation and now,
`averageUpdateFrequency` (a ratio in `[0, 1]` per listing) is reported as
`0` or `1`, never as a fractional frequency. -/
theorem average_update_frequency_integral :
    (∀ (now : Int) (listings : List ActiveListing), listings ≠ [] →
      (∀ l ∈ listings, l.createdAt ≤ l.updatedAt ∧ l.updatedAt ≤ now) →
      averageUpdateFrequency now listings = some 0 ∨
        averageUpdateFrequency now listings = some 1) ∧
    averageDaysOnMarket (3 * msPerDay)
        [⟨0, some msPerDay, 0, none⟩, ⟨0, some (2 * msPerDay), 0, none⟩] =
      some 2 ∧
    daysOnMarketValue 0 ⟨-164160000, some 0, 0, none⟩ = 1 := by
  refine ⟨?_, ?_, by decide⟩
  · intro now listings hne hbnd
    have hbounds : ∀ x ∈ listings.map (updateFrequencyValue now),
        0 ≤ x ∧ x ≤ 1 := by
      intro x hx
      rcases List.mem_map.mp hx with ⟨l, hl, rfl⟩
      exact updateFrequencyValue_mem_unit now l (hbnd l hl).1 (hbnd l hl).2
    set freqs := listings.map (updateFrequencyValue now) with hfreqs
    have hlen : freqs.length ≠ 0 := by
      simp [hfreqs, List.length_map, List.length_eq_zero, hne]
    have hsum0 : (0 : ℚ) ≤ freqs.sum :=
      List.sum_nonneg (fun x hx => (hbounds x hx).1)
    have hsumN : freqs.sum ≤ (freqs.length : ℚ) := by
      have := List.sum_le_card_nsmul freqs 1 (fun x hx => (hbounds x hx).2)
      simpa [nsmul_eq_mul] using this
    have hNpos : (0 : ℚ) < (freqs.length : ℚ) := by
      exact_mod_cast Nat.pos_of_ne_zero hlen
    have havg0 : (0 : ℚ) ≤ freqs.sum / (freqs.length : ℚ) :=
      div_nonneg hsum0 (le_of_lt hNpos)
    have havg1 : freqs.sum / (freqs.length : ℚ) ≤ 1 :=
      (div_le_one hNpos).mpr hsumN
    have hr0 : (0 : Int) ≤ jsRound (freqs.sum / (freqs.length : ℚ)) := by
      rw [jsRound, Int.le_floor]
      push_cast
      linarith
    have hr2 : jsRound (freqs.sum / (freqs.length : ℚ)) < 2 := by
      rw [jsRound, Int.floor_lt]
      push_cast
      linarith
    have hres : averageUpdateFrequency now listings =
        some (jsRound (freqs.sum / (freqs.length : ℚ))) := by
      simp only [averageUpdateFrequency, ← hfreqs, if_neg hlen]
    rw [hres]
    rcases (by omega :
        jsRound (freqs.sum / (freqs.length : ℚ)) = 0 ∨
        jsRound (freqs.sum / (freqs.length : ℚ)) = 1) with h | h
    · exact Or.inl (by rw [h])
    · exact Or.inr (by rw [h])
  · have h1 : daysOnMarketValue (3 * msPerDay) ⟨0, some msPerDay, 0, none⟩ = 1 := by
      decide
    have h2 : daysOnMarketValue (3 * msPerDay) ⟨0, some (2 * msPerDay), 0, none⟩ = 2 := by
      decide
    simp only [averageDaysOnMarket, List.map_cons, List.map_nil, h1, h2,
      List.length_cons, List.length_nil, List.sum_cons, List.sum_nil]
    norm_num [jsRound]

/-- C9 witness: a single just-created listing yields an integral reported
frequency. -/
theorem average_update_frequency_integral_witness :
    averageUpdateFrequency msPerDay [⟨0, none, 0, none⟩] = some 0 ∨
      averageUpdateFrequency msPerDay [⟨0, none, 0, none⟩] = some 1 := by
  refine average_update_frequency_integral.1 msPerDay [⟨0, none, 0, none⟩]
    (by decide) ?_
  intro l hl
  rw [List.mem_singleton] at hl
  subst hl
  exact ⟨by decide, by decide⟩

/-- Helper: bumping a fixed-key tally at `k` increments exactly the entry
of `k` (labels distinct), leaving absent keys untouched. -/
theorem bumpTally_map (labels : List String) (f : String → Nat) (k : String)
    (hnd : labels.Nodup) :
    bumpTally (labels.map (fun l => (l, f l))) k =
      labels.map (fun l => (l, if l = k then f l + 1 else f l)) := by
  induction labels with
  | nil => rfl
  | cons a labels ih =>
    rcases List.nodup_cons.mp hnd with ⟨ha, hnd2⟩
    simp only [List.map_cons, bumpTally]
    by_cases hak : a = k
    · subst hak
      rw [if_pos rfl, if_pos rfl]
      congr 1
      refine (List.map_congr_left ?_).symm
      intro l hl
      have hla : ¬ l = a := fun h => ha (h ▸ hl)
      rw [if_neg hla]
    · simp only [if_neg hak, ih hnd2]

/-- Helper: folding `forEach`-style increments over a population turns the
initial per-label counts into counts of classified elements. -/
theorem foldl_bumpTally (labels : List String) (key : α → String)
    (pop : List α) (hnd : labels.Nodup) :
    ∀ f : String → Nat,
      pop.foldl (fun acc x => bumpTally acc (key x))
          (labels.map (fun l => (l, f l))) =
        labels.map (fun l => (l, f l + pop.countP (fun x => key x = l))) := by
  induction pop with
  | nil => intro f; simp
  | cons x pop ih =>
    intro f
    simp only [List.foldl_cons]
    rw [bumpTally_map labels f (key x) hnd,
      ih (fun l2 => if l2 = key x then f l2 + 1 else f l2)]
    refine List.map_congr_left ?_
    intro l _
    refine congrArg (fun n => (l, n)) ?_
    simp only [List.countP_cons, decide_eq_true_eq]
    by_cases h : key x = l
    · rw [if_pos h.symm, if_pos h]
      omega
    · rw [if_neg (fun hh => h hh.symm), if_neg h]
      omega

/-- Helper: a fixed-key tally lists, per label in order, the count of
elements classified to that label. -/
theorem tallyValues_eq (labels : List String) (key : α → String)
    (pop : List α) (hnd : labels.Nodup) :
    tallyValues labels key pop =
      labels.map (fun l => pop.countP (fun x => key x = l)) := by
  unfold tallyValues tallyBy
  have h0 : labels.map (fun l => (l, 0)) =
      labels.map (fun l => (l, (fun _ : String => 0) l)) := rfl
  rw [h0, foldl_bumpTally labels key pop hnd (fun _ => 0)]
  simp [List.map_map]

/-- Helper: a fixed-key tally preserves the label order. -/
theorem tallyBy_keys (labels : List String) (key : α → String)
    (pop : List α) (hnd : labels.Nodup) :
    (tallyBy labels key pop).map Prod.fst = labels := by
  unfold tallyBy
  have h0 : labels.map (fun l => (l, 0)) =
      labels.map (fun l => (l, (fun _ : String => 0) l)) := rfl
  rw [h0, foldl_bumpTally labels key pop hnd (fun _ => 0), List.map_map,
    show (Prod.fst ∘ fun l => (l, 0 + pop.countP (fun x => key x = l))) = id
      from rfl, List.map_id]

/-- Helper: a constant-one map sums to the list length. -/
theorem sum_map_one (l : List α) : (l.map (fun _ => 1)).sum = l.length := by
  induction l with
  | nil => rfl
  | cons x l ih =>
    simp only [List.map_cons, List.sum_cons, List.length_cons, ih]
    omega

/-- Helper: when every element is classified to exactly one label, the
tallied counts sum to the population size. -/
theorem tallyValues_sum (labels : List String) (key : α → String)
    (pop : List α) (hnd : labels.Nodup)
    (hcov : ∀ x : α, labels.countP (fun l => key x = l) = 1) :
    (tallyValues labels key pop).sum = pop.length := by
  rw [tallyValues_eq labels key pop hnd,
    sum_map_countP_swap labels pop (fun x l => decide (key x = l))]
  have hone : ∀ x ∈ pop,
      labels.countP (fun l => decide (key x = l)) = 1 := fun x _ => hcov x
  rw [List.map_congr_left hone, sum_map_one]

/-- Helper: every mortgage age matches exactly one age label. -/
theorem categorizeMortgageAge_covers (q : ℚ) :
    mortgageAgeLabels.countP (fun l => categorizeMortgageAge q = l) = 1 := by
  have h : categorizeMortgageAge q = "0-5 years" ∨
      categorizeMortgageAge q = "5-10 years" ∨
      categorizeMortgageAge q = "10-15 years" ∨
      categorizeMortgageAge q = "15-20 years" ∨
      categorizeMortgageAge q = "20+ years" := by
    unfold categorizeMortgageAge
    split_ifs <;> simp
  rcases h with h | h | h | h | h <;> rw [h] <;> decide

/-- Helper: every balance matches exactly one balance label. -/
theorem categorizeBalance_covers (q : ℚ) :
    balanceLabels.countP (fun l => categorizeBalance q = l) = 1 := by
  have h : categorizeBalance q = "0-100k" ∨ categorizeBalance q = "100k-250k" ∨
      categorizeBalance q = "250k-500k" ∨ categorizeBalance q = "500k+" := by
    unfold categorizeBalance
    split_ifs <;> simp
  rcases h with h | h | h | h <;> rw [h] <;> decide

/-- Helper: every interest rate matches exactly one rate label. -/
theorem categorizeInterestRate_covers (q : ℚ) :
    interestRateLabels.countP (fun l => categorizeInterestRate q = l) = 1 := by
  have h : categorizeInterestRate q = "0-3%" ∨ categorizeInterestRate q = "3-4%" ∨
      categorizeInterestRate q = "4-5%" ∨ categorizeInterestRate q = "5-6%" ∨
      categorizeInterestRate q = "6%+" := by
    unfold categorizeInterestRate
    split_ifs <;> simp
  rcases h with h | h | h | h | h <;> rw [h] <;> decide

/-- C7: the mortgage analytics tally each mortgage into exactly one bucket
of each of the age, balance and interest-rate distributions, so each
distribution's values sum to the mortgage population size; the three outputs
preserve the fixed label order (zero-count labels included), and the empty
population yields all-zero values. -/
theorem mortgage_analytics_tally (now : Int) (ms : List AssumableMortgage) :
    (tallyBy mortgageAgeLabels
        (fun m => categorizeMortgageAge (mortgageAge now m)) ms).map Prod.fst =
      mortgageAgeLabels ∧
    (tallyBy balanceLabels
        (fun m => categorizeBalance m.currentBalance) ms).map Prod.fst =
      balanceLabels ∧
    (tallyBy interestRateLabels
        (fun m => categorizeInterestRate m.interestRate) ms).map Prod.fst =
      interestRateLabels ∧
    (mortgageAgeDistributionValues now ms).sum = ms.length ∧
    (balanceDistributionValues ms).sum = ms.length ∧
    (interestRateDistributionValues ms).sum = ms.length ∧
    (∀ m : AssumableMortgage, mortgageAgeLabels.countP
      (fun l => categorizeMortgageAge (mortgageAge now m) = l) = 1) ∧
    (∀ m : AssumableMortgage, balanceLabels.countP
      (fun l => categorizeBalance m.currentBalance = l) = 1) ∧
    (∀ m : AssumableMortgage, interestRateLabels.countP
      (fun l => categorizeInterestRate m.interestRate = l) = 1) ∧
    mortgageAgeDistributionValues now [] = [0, 0, 0, 0, 0] ∧
    balanceDistributionValues [] = [0, 0, 0, 0] ∧
    interestRateDistributionValues [] = [0, 0, 0, 0, 0] := by
  have hnd1 : mortgageAgeLabels.Nodup := by decide
  have hnd2 : balanceLabels.Nodup := by decide
  have hnd3 : interestRateLabels.Nodup := by decide
  refine ⟨tallyBy_keys _ _ _ hnd1, tallyBy_keys _ _ _ hnd2,
    tallyBy_keys _ _ _ hnd3,
    tallyValues_sum _ _ _ hnd1 (fun m => categorizeMortgageAge_covers _),
    tallyValues_sum _ _ _ hnd2 (fun m => categorizeBalance_covers _),
    tallyValues_sum _ _ _ hnd3 (fun m => categorizeInterestRate_covers _),
    fun m => categorizeMortgageAge_covers _,
    fun m => categorizeBalance_covers _,
    fun m => categorizeInterestRate_covers _,
    rfl, rfl, rfl⟩

/-- Helper: strict code-point comparison is irreflexive. -/
theorem strLtCore_irrefl (l : List Char) : strLtCore l l = false := by
  induction l with
  | nil => rfl
  | cons a l ih => simp [strLtCore, ih]

/-- Helper: strict code-point comparison is transitive. -/
theorem strLtCore_trans {a : List Char} : ∀ {b c : List Char},
    strLtCore a b = true → strLtCore b c = true → strLtCore a c = true := by
  induction a with
  | nil =>
    intro b c hab hbc
    cases b with
    | nil => exact absurd hab (by simp [strLtCore])
    | cons y ys =>
      cases c with
      | nil => exact absurd hbc (by simp [strLtCore])
      | cons z zs => simp [strLtCore]
  | cons x xs ih =>
    intro b c hab hbc
    cases b with
    | nil => exact absurd hab (by simp [strLtCore])
    | cons y ys =>
      cases c with
      | nil => exact absurd hbc (by simp [strLtCore])
      | cons z zs =>
        simp only [strLtCore] at hab hbc ⊢
        by_cases hxy : x.toNat < y.toNat
        · by_cases hyz : y.toNat < z.toNat
          · rw [if_pos (hxy.trans hyz)]
          · rw [if_neg hyz] at hbc
            by_cases hzy : z.toNat < y.toNat
            · rw [if_pos hzy] at hbc
              exact absurd hbc (by simp)
            · rw [if_pos (by omega : x.toNat < z.toNat)]
        · rw [if_neg hxy] at hab
          by_cases hyx : y.toNat < x.toNat
          · rw [if_pos hyx] at hab
            exact absurd hab (by simp)
          · rw [if_neg hyx] at hab
            by_cases hyz : y.toNat < z.toNat
            · rw [if_pos (by omega : x.toNat < z.toNat)]
            · rw [if_neg hyz] at hbc
              by_cases hzy : z.toNat < y.toNat
              · rw [if_pos hzy] at hbc
                exact absurd hbc (by simp)
              · rw [if_neg hzy] at hbc
                rw [if_neg (by omega : ¬ x.toNat < z.toNat),
                  if_neg (by omega : ¬ z.toNat < x.toNat)]
                exact ih hab hbc

/-- Helper: strict code-point comparison is asymmetric. -/
theorem strLtCore_asymm {a b : List Char} (h : strLtCore a b = true) :
    strLtCore b a = false := by
  cases hba : strLtCore b a with
  | false => rfl
  | true =>
    have h2 := strLtCore_trans h hba
    rw [strLtCore_irrefl] at h2
    exact absurd h2 (by simp)

/-- Helper: code-point comparison is connex. -/
theorem strLtCore_connex : ∀ {a b : List Char}, strLtCore a b = false →
    a = b ∨ strLtCore b a = true := by
  intro a
  induction a with
  | nil =>
    intro b h
    cases b with
    | nil => exact Or.inl rfl
    | cons y ys => exact absurd h (by simp [strLtCore])
  | cons x xs ih =>
    intro b h
    cases b with
    | nil => exact Or.inr rfl
    | cons y ys =>
      simp only [strLtCore] at h ⊢
      by_cases hxy : x.toNat < y.toNat
      · rw [if_pos hxy] at h
        exact absurd h (by simp)
      · rw [if_neg hxy] at h
        by_cases hyx : y.toNat < x.toNat
        · exact Or.inr (by rw [if_pos hyx])
        · rw [if_neg hyx] at h
          have hq : x.toNat = y.toNat := by omega
          have hxy2 : x = y := Char.ext (UInt32.ext hq)
          rcases ih h with h1 | h2
          · exact Or.inl (by rw [hxy2, h1])
          · refine Or.inr ?_
            rw [if_neg (by omega : ¬ y.toNat < x.toNat),
              if_neg (by omega : ¬ x.toNat < y.toNat)]
            exact h2

/-- Helper: strings with equal character data are equal. -/
theorem stringDataEq {a b : String} (h : a.data = b.data) : a = b := by
  cases a
  cases b
  exact congrArg String.mk h

/-- Helper: `strLtB` transitivity on strings. -/
theorem strLtB_trans {a b c : String} (h1 : strLtB a b = true)
    (h2 : strLtB b c = true) : strLtB a c = true :=
  strLtCore_trans h1 h2

/-- Helper: `strLtB` asymmetry on strings. -/
theorem strLtB_asymm {a b : String} (h : strLtB a b = true) :
    strLtB b a = false :=
  strLtCore_asymm h

/-- Helper: `strLtB` connexity on strings. -/
theorem strLtB_connexStr {a b : String} (h : strLtB a b = false) :
    a = b ∨ strLtB b a = true := by
  rcases strLtCore_connex h with h1 | h2
  · exact Or.inl (stringDataEq h1)
  · exact Or.inr h2

/-- Helper: the sort comparator is total. -/
theorem entryLe_total (a b : String × Nat) : entryLe a b ∨ entryLe b a := by
  unfold entryLe
  cases h : strLtB b.1 a.1 with
  | false => exact Or.inl rfl
  | true => exact Or.inr (strLtB_asymm h)

/-- Helper: the sort comparator is transitive. -/
theorem entryLe_trans (a b c : String × Nat)
    (hab : entryLe a b) (hbc : entryLe b c) : entryLe a c := by
  unfold entryLe at *
  cases hca : strLtB c.1 a.1 with
  | false => rfl
  | true =>
    exfalso
    rcases strLtB_connexStr hab with h1 | h2
    · rw [h1] at hbc
      rw [hca] at hbc
      exact absurd hbc (by simp)
    · have h3 := strLtB_trans hca h2
      rw [hbc] at h3
      exact absurd h3 (by simp)

/-- Helper: `Map.get` after `Map.set`. -/
theorem lookupKey_mapSet (m : List (String × Nat)) (k k2 : String) (v : Nat) :
    lookupKey (mapSet m k v) k2 = if k2 = k then some v else lookupKey m k2 := by
  induction m with
  | nil =>
    simp only [mapSet, lookupKey]
    by_cases h : k = k2
    · rw [if_pos h, if_pos h.symm]
    · rw [if_neg h, if_neg (fun hh => h hh.symm)]
  | cons e m ih =>
    obtain ⟨a, w⟩ := e
    simp only [mapSet]
    by_cases hak : a = k
    · subst hak
      rw [if_pos rfl]
      simp only [lookupKey]
      by_cases h2 : a = k2
      · rw [if_pos h2, if_pos h2.symm]
      · rw [if_neg h2, if_neg (fun hh : k2 = a => h2 hh.symm), if_neg h2]
    · rw [if_neg hak]
      simp only [lookupKey]
      by_cases h2 : a = k2
      · rw [if_pos h2, if_neg (fun hh : k2 = k => hak (h2.trans hh)), if_pos h2]
      · rw [if_neg h2, ih, if_neg h2]

/-- Helper: `Map.set` keeps existing keys in place and appends a new key. -/
theorem keys_mapSet (m : List (String × Nat)) (k : String) (v : Nat) :
    (mapSet m k v).map Prod.fst =
      if k ∈ m.map Prod.fst then m.map Prod.fst else m.map Prod.fst ++ [k] := by
  induction m with
  | nil => simp [mapSet]
  | cons e m ih =>
    obtain ⟨a, w⟩ := e
    simp only [mapSet, List.map_cons, List.mem_cons]
    by_cases hak : a = k
    · subst hak
      rw [if_pos rfl, if_pos (Or.inl rfl)]
      simp
    · rw [if_neg hak]
      simp only [List.map_cons, ih]
      by_cases hk : k ∈ m.map Prod.fst
      · rw [if_pos hk, if_pos (Or.inr hk)]
      · rw [if_neg hk, if_neg (by
          intro hc
          rcases hc with hc | hc
          · exact hak hc.symm
          · exact hk hc)]
        simp

/-- Helper: `Map.set` preserves distinctness of keys. -/
theorem nodup_keys_mapSet (m : List (String × Nat)) (k : String) (v : Nat)
    (h : (m.map Prod.fst).Nodup) : ((mapSet m k v).map Prod.fst).Nodup := by
  rw [keys_mapSet]
  by_cases hk : k ∈ m.map Prod.fst
  · rw [if_pos hk]
    exact h
  · rw [if_neg hk]
    rw [List.nodup_append]
    exact ⟨h, List.nodup_singleton k, by
      intro x hx hx2
      rw [List.mem_singleton] at hx2
      exact hk (hx2 ▸ hx)⟩

/-- Helper: a key is absent exactly when `Map.get` yields nothing. -/
theorem lookupKey_eq_none_iff (m : List (String × Nat)) (k : String) :
    lookupKey m k = none ↔ k ∉ m.map Prod.fst := by
  induction m with
  | nil => simp [lookupKey]
  | cons e m ih =>
    obtain ⟨a, w⟩ := e
    simp only [lookupKey, List.map_cons, List.mem_cons]
    by_cases h : a = k
    · rw [if_pos h]
      simp [h]
    · rw [if_neg h]
      rw [ih]
      constructor
      · intro hnk hc
        rcases hc with hc | hc
        · exact h hc.symm
        · exact hnk hc
      · intro hc
        exact fun hm => hc (Or.inr hm)

/-- Helper: with distinct keys, membership determines the lookup. -/
theorem lookupKey_of_mem (m : List (String × Nat)) (p : String × Nat)
    (hnd : (m.map Prod.fst).Nodup) (hp : p ∈ m) :
    lookupKey m p.1 = some p.2 := by
  induction m with
  | nil => exact absurd hp (List.not_mem_nil p)
  | cons e m ih =>
    obtain ⟨a, w⟩ := e
    rw [List.map_cons] at hnd
    rcases List.nodup_cons.mp hnd with ⟨ha, hnd2⟩
    simp only [lookupKey]
    rcases List.mem_cons.mp hp with hp1 | hp2
    · subst hp1
      rw [if_pos rfl]
    · have hne : a ≠ p.1 := by
        intro hc
        exact ha (hc ▸ (List.mem_map.mpr ⟨p, hp2, rfl⟩))
      rw [if_neg hne]
      exact ih hnd2 hp2

/-- Helper: the effect of one grouping step on lookups. -/
theorem lookupKey_groupStep (kf : Int → String) (m : List (String × Nat))
    (it : TSPoint) (k : String) :
    lookupKey (groupStep kf m it) k =
      if k = kf it.createdAt
      then some ((lookupKey m k).getD 0 + it.count)
      else lookupKey m k := by
  unfold groupStep
  rw [lookupKey_mapSet]
  by_cases h : k = kf it.createdAt
  · rw [if_pos h, if_pos h, h]
  · rw [if_neg h, if_neg h]

/-- Helper: grouping steps preserve distinctness of keys. -/
theorem nodup_keys_foldl_groupStep (kf : Int → String) (items : List TSPoint) :
    ∀ m : List (String × Nat), (m.map Prod.fst).Nodup →
      (((items.foldl (groupStep kf) m)).map Prod.fst).Nodup := by
  induction items with
  | nil => exact fun m h => h
  | cons it items ih =>
    intro m h
    rw [List.foldl_cons]
    exact ih _ (nodup_keys_mapSet _ _ _ h)

/-- Helper: the grouped map sums the `_count`s of equal-keyed items on top
of the initial contents. -/
theorem lookupKey_foldl_groupStep (kf : Int → String) (items : List TSPoint) :
    ∀ (m : List (String × Nat)) (k : String),
      lookupKey (items.foldl (groupStep kf) m) k =
        if k ∈ items.map (fun it => kf it.createdAt) ∨ (lookupKey m k).isSome
        then some ((lookupKey m k).getD 0 + sumCountsForKey kf k items)
        else none := by
  induction items with
  | nil =>
    intro m k
    cases h : lookupKey m k with
    | none => simp [h, sumCountsForKey]
    | some v => simp [h, sumCountsForKey]
  | cons it items ih =>
    intro m k
    rw [List.foldl_cons, ih, lookupKey_groupStep]
    by_cases hk : k = kf it.createdAt
    · rw [if_pos hk]
      have hmem : k ∈ (it :: items).map (fun it2 => kf it2.createdAt) :=
        List.mem_cons.mpr (Or.inl hk)
      rw [if_pos (Or.inr (by simp)), if_pos (Or.inl hmem)]
      have hsum : sumCountsForKey kf k (it :: items) =
          it.count + sumCountsForKey kf k items := by
        unfold sumCountsForKey
        rw [List.filter_cons, if_pos (by simpa using hk.symm)]
        simp
      rw [hsum]
      simp only [Option.getD_some]
      exact congrArg some (by omega)
    · rw [if_neg hk]
      have hsum : sumCountsForKey kf k (it :: items) =
          sumCountsForKey kf k items := by
        unfold sumCountsForKey
        rw [List.filter_cons, if_neg (by simpa using fun hh => hk hh.symm)]
      have hmem : (k ∈ (it :: items).map (fun it2 => kf it2.createdAt)) ↔
          (k ∈ items.map (fun it2 => kf it2.createdAt)) := by
        simp only [List.map_cons, List.mem_cons]
        constructor
        · intro hc
          rcases hc with hc | hc
          · exact absurd hc hk
          · exact hc
        · exact Or.inr
      rw [hsum]
      by_cases hcond : k ∈ items.map (fun it2 => kf it2.createdAt) ∨
          (lookupKey m k).isSome
      · rw [if_pos hcond, if_pos (by
          rcases hcond with hc | hc
          · exact Or.inl (hmem.mpr hc)
          · exact Or.inr hc)]
      · rw [if_neg hcond, if_neg (by
          intro hc
          rcases hc with hc | hc
          · exact hcond (Or.inl (hmem.mp hc))
          · exact hcond (Or.inr hc))]

/-- Helper: the grouped keys are exactly the keys of the input items. -/
theorem mem_keys_foldl_groupStep (kf : Int → String) (items : List TSPoint)
    (k : String) :
    k ∈ (items.foldl (groupStep kf) []).map Prod.fst ↔
      k ∈ items.map (fun it => kf it.createdAt) := by
  have h7 := lookupKey_foldl_groupStep kf items [] k
  rw [show lookupKey ([] : List (String × Nat)) k = none from rfl] at h7
  simp only [Option.isSome_none, Bool.false_eq_true, or_false,
    Option.getD_none] at h7
  constructor
  · intro hk
    by_cases hc : k ∈ items.map (fun it => kf it.createdAt)
    · exact hc
    · exfalso
      rw [if_neg hc] at h7
      exact (lookupKey_eq_none_iff _ k).mp h7 hk
  · intro hc
    rw [if_pos hc] at h7
    by_contra hk
    have hn := (lookupKey_eq_none_iff _ k).mpr hk
    rw [h7] at hn
    exact absurd hn (by simp)

/-- Helper: the sorted grouped entries are strictly ascending by key, carry
exactly the input keys, and pair each key with the sum of its counts. -/
theorem groupSort_spec (kf : Int → String) (items : List TSPoint) :
    List.Pairwise (fun a b => strLtB a b = true)
      ((List.insertionSort entryLe (items.foldl (groupStep kf) [])).map
        Prod.fst) ∧
    (∀ k : String,
      k ∈ (List.insertionSort entryLe (items.foldl (groupStep kf) [])).map
        Prod.fst ↔ k ∈ items.map (fun it => kf it.createdAt)) ∧
    (List.insertionSort entryLe (items.foldl (groupStep kf) [])).map
        Prod.snd =
      ((List.insertionSort entryLe (items.foldl (groupStep kf) [])).map
        Prod.fst).map (fun k => sumCountsForKey kf k items) := by
  haveI instT : IsTotal (String × Nat) entryLe := ⟨entryLe_total⟩
  haveI instR : IsTrans (String × Nat) entryLe := ⟨entryLe_trans⟩
  set grouped := items.foldl (groupStep kf) [] with hgrouped
  set sorted := List.insertionSort entryLe grouped with hsorted
  have hperm : sorted.Perm grouped := List.perm_insertionSort entryLe grouped
  have hpe : List.Pairwise entryLe sorted :=
    List.sorted_insertionSort entryLe grouped
  have hndg : (grouped.map Prod.fst).Nodup :=
    nodup_keys_foldl_groupStep kf items [] (by simp)
  have hnds : ((sorted.map Prod.fst)).Nodup :=
    ((hperm.map Prod.fst).nodup_iff).mpr hndg
  refine ⟨?_, ?_, ?_⟩
  · have h1 : List.Pairwise (fun a b : String => strLtB b a = false)
        (sorted.map Prod.fst) :=
      List.Pairwise.map Prod.fst (fun a b h => h) hpe
    have h2 := List.Pairwise.and h1 hnds
    refine h2.imp ?_
    intro a b hab
    rcases strLtB_connexStr hab.1 with hc | hc
    · exact absurd hc.symm hab.2
    · exact hc
  · intro k
    rw [(hperm.map Prod.fst).mem_iff]
    exact mem_keys_foldl_groupStep kf items k
  · have hval : ∀ p ∈ sorted, p.2 = sumCountsForKey kf p.1 items := by
      intro p hp
      have hpg : p ∈ grouped := hperm.subset hp
      have hl : lookupKey grouped p.1 = some p.2 :=
        lookupKey_of_mem grouped p hndg hpg
      have h7 := lookupKey_foldl_groupStep kf items [] p.1
      rw [show lookupKey ([] : List (String × Nat)) p.1 = none from rfl] at h7
      simp only [Option.isSome_none, Bool.false_eq_true, or_false,
        Option.getD_none] at h7
      by_cases hc : p.1 ∈ items.map (fun it => kf it.createdAt)
      · rw [if_pos hc] at h7
        rw [h7] at hl
        have hinj := Option.some.inj hl
        omega
      · rw [if_neg hc] at h7
        rw [h7] at hl
        exact absurd hl (by simp)
    calc sorted.map Prod.snd
        = sorted.map (fun p => sumCountsForKey kf p.1 items) :=
          List.map_congr_left hval
      _ = (sorted.map Prod.fst).map (fun k => sumCountsForKey kf k items) := by
          rw [List.map_map]
          rfl

/-- Helper: unfolding `processTimeSeries` on a non-empty input. -/
theorem processTimeSeries_some_eq (items : List TSPoint) (iv : TrendInterval)
    (h : items ≠ []) :
    processTimeSeries (some items) iv =
      ⟨(List.insertionSort entryLe
          (items.foldl (groupStep (intervalKey iv)) [])).map Prod.fst,
        (List.insertionSort entryLe
          (items.foldl (groupStep (intervalKey iv)) [])).map Prod.snd⟩ := by
  simp only [processTimeSeries]
  rw [if_neg (by simpa [List.length_eq_zero] using h)]

/-- Helper: timestamps of the same Sunday-started calendar week share the
weekly grouping key. -/
theorem weeklyKey_eq_of_sameWeek (t1 t2 : Int) (h : sameCalendarWeek t1 t2) :
    weeklyKeyOfTimestamp t1 = weeklyKeyOfTimestamp t2 := by
  obtain ⟨s, hs, h1, h2, h3, h4⟩ := h
  unfold isSundayDay at hs
  simp only [weeklyKeyOfTimestamp, jsGetDay]
  congr 1
  have he1 : (dayOfTimestamp t1 + 4).emod 7 = (dayOfTimestamp t1 + 4) % 7 := rfl
  have he2 : (dayOfTimestamp t2 + 4).emod 7 = (dayOfTimestamp t2 + 4) % 7 := rfl
  have hs2 : (s + 4) % 7 = 0 := hs
  rw [he1, he2]
  omega

/-- Helper: timestamps of the same civil month share the monthly grouping
key. -/
theorem monthlyKey_eq_of_sameMonth (t1 t2 : Int) (h : sameCivilMonth t1 t2) :
    monthlyKeyOfTimestamp t1 = monthlyKeyOfTimestamp t2 := by
  obtain ⟨hy, hm⟩ := h
  simp only [monthlyKeyOfTimestamp]
  rw [hy, hm]

/-- C2: `processTimeSeries` groups items created in the same calendar week
into one entry keyed by the ISO date of that week's Sunday (weekly) and
items of the same month under a `YYYY-MM` key (monthly); within a group the
counts are summed, groups are listed strictly ascending by key string as
parallel date/value sequences, and missing or empty input yields empty
sequences; e.g. a Tuesday-created and a Thursday-created item of the week of
Sunday 2023-12-31 merge into the single entry `("2023-12-31", 3)`. -/
theorem time_series_grouping (iv : TrendInterval) :
    processTimeSeries none iv = ⟨[], []⟩ ∧
    processTimeSeries (some []) iv = ⟨[], []⟩ ∧
    (∀ items : List TSPoint,
      List.Pairwise (fun a b => strLtB a b = true)
        (processTimeSeries (some items) iv).dates ∧
      (∀ k : String, k ∈ (processTimeSeries (some items) iv).dates ↔
        k ∈ items.map (fun it => intervalKey iv it.createdAt)) ∧
      (processTimeSeries (some items) iv).values =
        (processTimeSeries (some items) iv).dates.map
          (fun k => sumCountsForKey (intervalKey iv) k items)) ∧
    (∀ t1 t2 : Int, sameCalendarWeek t1 t2 →
      weeklyKeyOfTimestamp t1 = weeklyKeyOfTimestamp t2) ∧
    (∀ t1 t2 : Int, sameCivilMonth t1 t2 →
      monthlyKeyOfTimestamp t1 = monthlyKeyOfTimestamp t2) ∧
    processTimeSeries
        (some [⟨19724 * msPerDay + 43200000, 1⟩,
          ⟨19726 * msPerDay + 3600000, 2⟩]) TrendInterval.weekly =
      ⟨["2023-12-31"], [3]⟩ ∧
    monthlyKeyOfTimestamp (19724 * msPerDay) = "2024-01" := by
  refine ⟨rfl, rfl, ?_, weeklyKey_eq_of_sameWeek, monthlyKey_eq_of_sameMonth,
    by decide, by decide⟩
  intro items
  by_cases hemp : items = []
  · subst hemp
    exact ⟨by simp [processTimeSeries], fun k => by simp [processTimeSeries],
      by simp [processTimeSeries]⟩
  · rw [processTimeSeries_some_eq items iv hemp]
    exact groupSort_spec (intervalKey iv) items

/-- C2 witness: a Tuesday and a Thursday of the week of Sunday day 19722
(2023-12-31) share the weekly key. -/
theorem time_series_grouping_witness :
    weeklyKeyOfTimestamp (19724 * msPerDay + 43200000) =
      weeklyKeyOfTimestamp (19726 * msPerDay + 3600000) :=
  (time_series_grouping TrendInterval.weekly).2.2.2.1
    (19724 * msPerDay + 43200000) (19726 * msPerDay + 3600000)
    ⟨19722, by unfold isSundayDay; decide, by decide, by decide, by decide,
      by decide⟩
